import Mathlib

/-!
Verification of `src/cypress-extension/content.js` (cypress-testid-visualizer).

The script keeps three module-level registries:
  `const elementData = new WeakMap()`   -- element -> stored handler record
  `const trackedElements = new Set()`   -- elements with attached listeners
  `const activeTimeouts = new Set()`    -- pending feedback-removal timeout ids
and maintains them through `highlightElement`, `cleanupElement`,
`scanAndHighlight`, a debounced mutation-observer callback, copy/feedback
helpers and a `beforeunload` teardown handler.

DOM elements are modelled by natural-number identities.  The document is the
list of element ids currently attached (`document.contains`), together with
the `data-testid` attribute map.  `classList` is modelled as the list of
(element, class-name) pairs; the script only ever reads or writes the single
class `test-id-highlight`.  Listeners attached by the script are modelled as
(element, event-name) pairs; the script attaches at most one listener per
event name per element (guarded by `elementData.has`).  JS `Set.add` /
`WeakMap.set` are idempotent on an existing member, so insertion is modelled
with a membership guard; `Set.delete` / `classList.remove` /
`removeEventListener` remove the entry, modelled by `List.filter`.

`attachCount` counts executions of the attach block of `highlightElement`
(the class add, the three `addEventListener` calls and the side-table
insert); `detachCount` counts executions of the detach block of
`cleanupElement`.  They let us state that a pass performs zero additional
attach/detach operations.
-/

abbrev ElemId := Nat

def highlightClass : String := "test-id-highlight"

def mouseenterEvt : String := "mouseenter"

def mouseleaveEvt : String := "mouseleave"

def clickEvt : String := "click"

structure SysState where
  doc : List ElemId
  testid : List (ElemId × String)
  classes : List (ElemId × String)
  listeners : List (ElemId × String)
  elementData : List ElemId
  tracked : List ElemId
  attachCount : Nat
  detachCount : Nat
deriving DecidableEq

/-- Value of the `data-testid` attribute: `el.getAttribute('data-testid')`.
`none` models an absent attribute. -/
def getAttr (s : SysState) (e : ElemId) : Option String :=
  (s.testid.find? (fun p => p.1 == e)).map (fun p => p.2)

/-- Attribute selector `[data-testid]` of `querySelectorAll`: matches when the
attribute is present, whatever its value (including the empty string). -/
def hasAttr (s : SysState) (e : ElemId) : Bool :=
  (getAttr s e).isSome

/-- Truthiness of `el.dataset.testid`: false when the attribute is absent or
its value is the empty string. -/
def testidTruthy (s : SysState) (e : ElemId) : Bool :=
  match getAttr s e with
  | none => false
  | some t => !(t == "")

/-- JS `Set.add` / `WeakMap.set` restricted to keys: a no-op on an existing
member, otherwise appends. -/
def insertId (e : ElemId) (l : List ElemId) : List ElemId :=
  if e ∈ l then l else l ++ [e]

/-- `classList.add` / `addEventListener` on a pair that is a no-op when the
pair is already present. -/
def insertPair (p : ElemId × String) (l : List (ElemId × String)) :
    List (ElemId × String) :=
  if p ∈ l then l else l ++ [p]

/-- JS `Set.delete` / `WeakMap.delete` restricted to keys. -/
def removeId (e : ElemId) (l : List ElemId) : List ElemId :=
  l.filter (fun x => decide (x ≠ e))

/-- `classList.remove` / `removeEventListener` on a pair. -/
def removePair (p : ElemId × String) (l : List (ElemId × String)) :
    List (ElemId × String) :=
  l.filter (fun q => decide (q ≠ p))

/-- `highlightElement(el)`:

    if (!el.dataset.testid || el.classList.contains('test-id-highlight')) return;
    if (elementData.has(el)) return;
    el.classList.add('test-id-highlight');
    ... three addEventListener calls ...
    elementData.set(el, {mouseEnterHandler, mouseLeaveHandler, clickHandler});
    trackedElements.add(el);
-/
def highlightElement (e : ElemId) (s : SysState) : SysState :=
  if testidTruthy s e = false ∨ (e, highlightClass) ∈ s.classes then s
  else if e ∈ s.elementData then s
  else
    { s with
      classes := insertPair (e, highlightClass) s.classes
      listeners :=
        insertPair (e, clickEvt)
          (insertPair (e, mouseleaveEvt) (insertPair (e, mouseenterEvt) s.listeners))
      elementData := insertId e s.elementData
      tracked := insertId e s.tracked
      attachCount := s.attachCount + 1 }

/-- `cleanupElement(el)`:

    if (!elementData.has(el)) return;
    el.removeEventListener('mouseenter', ...); ('mouseleave', ...); ('click', ...);
    el.classList.remove('test-id-highlight');
    elementData.delete(el);
    trackedElements.delete(el);
-/
def cleanupElement (e : ElemId) (s : SysState) : SysState :=
  if e ∉ s.elementData then s
  else
    { s with
      listeners :=
        removePair (e, clickEvt)
          (removePair (e, mouseleaveEvt) (removePair (e, mouseenterEvt) s.listeners))
      classes := removePair (e, highlightClass) s.classes
      elementData := removeId e s.elementData
      tracked := removeId e s.tracked
      detachCount := s.detachCount + 1 }

/-- `document.querySelectorAll('[data-testid]')` (also the snapshot
`currentElements = new Set(elements)`). -/
def currentElems (s : SysState) : List ElemId :=
  s.doc.filter (fun e => hasAttr s e)

/-- One iteration of the cleanup loop of `scanAndHighlight`:

    if (!currentElements.has(el) || !document.contains(el)) cleanupElement(el);
-/
def cleanupStep (current : List ElemId) (s : SysState) (e : ElemId) : SysState :=
  if e ∉ current ∨ e ∉ s.doc then cleanupElement e s else s

/-- `scanAndHighlight()`: highlight every element matching `[data-testid]`,
then clean up every tracked element that is absent from the scan result or
detached from the document.  The JS `for (const el of trackedElements)` loop
iterates the live set while `cleanupElement` deletes only the element under
consideration, which is equivalent to folding over a snapshot of the set. -/
def scanAndHighlight (s : SysState) : SysState :=
  let current := currentElems s
  let s1 := current.foldl (fun st e => highlightElement e st) s
  s1.tracked.foldl (cleanupStep current) s1

/-- The registries start empty. -/
def initState : SysState :=
  { doc := [], testid := [], classes := [], listeners := [],
    elementData := [], tracked := [], attachCount := 0, detachCount := 0 }

/-- The disjunction under which `highlightElement` returns without doing
anything: falsy `dataset.testid`, the presentation class already present, or
an existing side-table entry. -/
def hlSkips (e : ElemId) (s : SysState) : Prop :=
  testidTruthy s e = false ∨ (e, highlightClass) ∈ s.classes ∨ e ∈ s.elementData

/-- The element carries all the per-element state installed by the attach
block of `highlightElement`: tracked-set membership, side-table entry, the
presentation class and the three listeners. -/
def annotated (e : ElemId) (s : SysState) : Prop :=
  e ∈ s.tracked ∧ e ∈ s.elementData ∧ (e, highlightClass) ∈ s.classes ∧
  (e, mouseenterEvt) ∈ s.listeners ∧ (e, mouseleaveEvt) ∈ s.listeners ∧
  (e, clickEvt) ∈ s.listeners

/-- The element carries none of the per-element state managed by the script. -/
def detached (e : ElemId) (s : SysState) : Prop :=
  e ∉ s.tracked ∧ e ∉ s.elementData ∧ (e, highlightClass) ∉ s.classes ∧
  (e, mouseenterEvt) ∉ s.listeners ∧ (e, mouseleaveEvt) ∉ s.listeners ∧
  (e, clickEvt) ∉ s.listeners


/-- The membership invariant of the spec data model: an element is in
`trackedElements` iff it has a side-table entry in `elementData` iff it has
each of the three listeners attached by the script. -/
def membershipInv (s : SysState) : Prop :=
  ∀ e : ElemId,
    (e ∈ s.tracked ↔ e ∈ s.elementData) ∧
    (e ∈ s.tracked ↔ (e, mouseenterEvt) ∈ s.listeners) ∧
    (e ∈ s.tracked ↔ (e, mouseleaveEvt) ∈ s.listeners) ∧
    (e ∈ s.tracked ↔ (e, clickEvt) ∈ s.listeners)

/-- The tracked-element part of the `beforeunload` handler:

    for (const el of trackedElements) { cleanupElement(el); }
-/
def teardownSys (s : SysState) : SysState :=
  s.tracked.foldl (fun st e => cleanupElement e st) s

/-!
### Teardown state (`beforeunload` handler)

Beyond the reconciler state, the page at any instant carries: the feedback
timeout ids registered in `activeTimeouts`; the pending tooltip-removal
timeouts created by `mouseLeaveHandler` and by the tooltip's own `mouseleave`
listener (never registered anywhere — their `setTimeout` return values are
discarded); the debounce closure's internal `timeout` (visible to nobody but
`debouncedScanAndHighlight` itself); the observer connection; and the two
singleton artifacts.
-/

structure FullState where
  sys : SysState
  activeTimeouts : List Nat
  tooltipRemovalTimers : List Nat
  debouncePending : Bool
  observerConnected : Bool
  tooltipInDoc : Bool
  feedbackInDoc : Bool
deriving DecidableEq

/-- Number of timers created by the script that are still pending. -/
def pendingTimerCount (st : FullState) : Nat :=
  st.activeTimeouts.length + st.tooltipRemovalTimers.length +
    (if st.debouncePending then 1 else 0)

/-- The `beforeunload` listener: cleans up every tracked element, calls
`clearTimeout` on each id in `activeTimeouts` and clears that set,
disconnects the observer, and removes the tooltip and feedback artifacts.
It holds no reference to the tooltip-removal timeouts (their ids were
discarded at creation) nor to the debounce closure's internal `timeout`, so
those pending timers are left untouched. -/
def beforeunloadHandler (st : FullState) : FullState :=
  { st with
    sys := teardownSys st.sys
    activeTimeouts := []
    observerConnected := false
    tooltipInDoc := false
    feedbackInDoc := false }

/-!
### Debouncer (`debounce(func, wait)` and `debouncedScanAndHighlight`)

State of the closure: `timeout`, the pending scheduled invocation, as the
pair of its fire time and the captured `args`, or `none`.  An invocation at
time `t` runs `clearTimeout(timeout); timeout = setTimeout(later, wait)`: it
unconditionally replaces the pending invocation with one due at `t + wait`
carrying the new arguments.  A pending timer whose due time has arrived
before the next invocation has already fired, executing `func` with its
captured arguments; `debStep` collects such executions.  `debExecs` processes
the whole time-ordered invocation list and lets the final pending timer fire.
-/

def debounceWaitMs : Nat := 100

def debStep {α : Type} (wait : Nat) (st : Option (Nat × α) × List α)
    (call : Nat × α) : Option (Nat × α) × List α :=
  let fired :=
    match st.1 with
    | some (due, a) => if due ≤ call.1 then st.2 ++ [a] else st.2
    | none => st.2
  (some (call.1 + wait, call.2), fired)

/-- All executions of the wrapped function, given the list of invocations
(time, arguments) in time order, once every remaining timer has fired. -/
def debExecs {α : Type} (wait : Nat) (calls : List (Nat × α)) : List α :=
  let st := calls.foldl (debStep wait) (none, [])
  match st.1 with
  | some (_, a) => st.2 ++ [a]
  | none => st.2

/-- Successive invocation times are ordered and each falls inside the quiet
window opened by its predecessor. -/
def withinWindow {α : Type} (wait : Nat) : List (Nat × α) → Bool
  | (t1, _) :: (t2, a2) :: rest =>
      decide (t1 ≤ t2) && decide (t2 < t1 + wait) && withinWindow wait ((t2, a2) :: rest)
  | _ => true

/-!
### Feedback notifier (`showCopyFeedback`)

`feedbacks` is the list of elements with the reserved id
`__testid_copy_feedback__` currently in the document, in document order,
each with an identity tag (for the `WeakRef`) and its `innerText`.
`getElementById` returns the first one.  `activeTimeouts` holds the pending
2000ms removal timers as (timeout id, tag of the artifact the callback's
`WeakRef` points to).
-/

structure Feedback where
  tag : Nat
  text : String
deriving DecidableEq

structure FbState where
  feedbacks : List Feedback
  activeTimeouts : List (Nat × Nat)
deriving DecidableEq

/-- `showCopyFeedback(el, testId)`: remove the existing feedback artifact (if
any), `clearTimeout` every id in `activeTimeouts` and empty the set, append a
new artifact with text `Copied: ${testId}`, and register its 2000ms removal
timer.  `timeoutId` and `tag` stand for the fresh `setTimeout` id and the
identity of the new DOM node. -/
def showCopyFeedback (testId : String) (timeoutId tag : Nat) (s : FbState) :
    FbState :=
  let afterRemove :=
    match s.feedbacks with
    | [] => s.feedbacks
    | _ :: rest => rest
  { feedbacks := afterRemove ++ [{ tag := tag, text := "Copied: " ++ testId }]
    activeTimeouts := [(timeoutId, tag)] }

/-- The 2000ms callback of `showCopyFeedback` for timer `tid`: if the timer
is still pending, remove the artifact its `WeakRef` dereferences to (when
still in the document) and drop `tid` from `activeTimeouts`.  A cleared
timer never runs. -/
def feedbackTimerFire (tid : Nat) (s : FbState) : FbState :=
  match s.activeTimeouts.find? (fun p => p.1 == tid) with
  | none => s
  | some (_, tag) =>
      { feedbacks := s.feedbacks.filter (fun f => decide (f.tag ≠ tag))
        activeTimeouts := s.activeTimeouts.filter (fun p => decide (p.1 ≠ tid)) }

/-!
### Tooltip removal timing (`mouseEnterHandler` / `mouseLeaveHandler`)

`elemLeaveTimers` are the fire times of timers scheduled by the tracked
element's `mouseLeaveHandler`; its body checks `!tooltip.matches(':hover')`
before removing.  `tipLeaveTimers` are the fire times of timers scheduled by
the tooltip's own `mouseleave` listener; its body checks only
`tooltip.parentNode`.  The tooltip's `mouseenter` listener body is empty
(the source comment reads "Cancel any pending removal" but no statement
follows), so entering the tooltip only flips the browser hover state.
-/

def tooltipGraceMs : Nat := 100

structure TipState where
  tooltipPresent : Bool
  pointerOverTooltip : Bool
  elemLeaveTimers : List Nat
  tipLeaveTimers : List Nat
deriving DecidableEq

inductive TipEvent where
  | elemLeave (now : Nat)
  | tipEnter
  | tipLeave (now : Nat)
  | elemTimerFire (due : Nat)
  | tipTimerFire (due : Nat)
deriving DecidableEq

def tipStep (s : TipState) : TipEvent → TipState
  | TipEvent.elemLeave now =>
      { s with elemLeaveTimers := s.elemLeaveTimers ++ [now + tooltipGraceMs] }
  | TipEvent.tipEnter =>
      { s with pointerOverTooltip := true }
  | TipEvent.tipLeave now =>
      { s with pointerOverTooltip := false
               tipLeaveTimers := s.tipLeaveTimers ++ [now + tooltipGraceMs] }
  | TipEvent.elemTimerFire due =>
      if due ∈ s.elemLeaveTimers then
        if s.tooltipPresent && !s.pointerOverTooltip then
          { s with tooltipPresent := false
                   elemLeaveTimers := s.elemLeaveTimers.erase due }
        else
          { s with elemLeaveTimers := s.elemLeaveTimers.erase due }
      else s
  | TipEvent.tipTimerFire due =>
      if due ∈ s.tipLeaveTimers then
        if s.tooltipPresent then
          { s with tooltipPresent := false
                   tipLeaveTimers := s.tipLeaveTimers.erase due }
        else
          { s with tipLeaveTimers := s.tipLeaveTimers.erase due }
      else s

def tipRun (s : TipState) (events : List TipEvent) : TipState :=
  events.foldl tipStep s

/-!
### Clipboard writer (`clickHandler` and `fallbackCopyTextToClipboard`)

The success or failure of the two copy mechanisms is environmental:
`clipOk` stands for whether `navigator.clipboard.writeText` resolves, and
`execOk` for whether `document.execCommand('copy')` succeeds.  `CopyOutcome`
records what the handler did: how many times `showCopyFeedback` was invoked,
whether the fallback ran, and how many errors were logged by
`console.error`.  The handler's result type is `Except`: an uncaught
exception would be an `Except.error`.
-/

structure CopyOutcome where
  feedbackCalls : Nat
  fallbackInvoked : Bool
  loggedErrors : Nat
deriving DecidableEq

def clipboardWriteText (clipOk : Bool) : Except String Unit :=
  if clipOk then Except.ok () else Except.error "write rejected"

def execCommandCopy (execOk : Bool) : Except String Bool :=
  if execOk then Except.ok true else Except.error "unable to copy"

/-- `fallbackCopyTextToClipboard(text)`: offscreen textarea, focus, select,
then `try { document.execCommand('copy') } catch (err) { console.error(...) }`.
The catch only logs; the function returns the number of logged errors and can
never propagate a failure (its result type is not `Except`). -/
def fallbackCopyTextToClipboard (execOk : Bool) : Nat :=
  match execCommandCopy execOk with
  | Except.ok _ => 0
  | Except.error _ => 1

/-- `clickHandler(e)` on a tracked element (the tooltip's click handler has
the same copy logic):

    const testId = el.getAttribute('data-testid');
    if (!testId) return;
    try {
      await navigator.clipboard.writeText(testId);
      showCopyFeedback(el, testId);
    } catch (err) {
      console.error('Failed to copy data-testid:', err);
      fallbackCopyTextToClipboard(testId);
      showCopyFeedback(el, testId);
    }
-/
def clickHandler (testId : String) (clipOk execOk : Bool) :
    Except String CopyOutcome :=
  if testId = "" then
    Except.ok { feedbackCalls := 0, fallbackInvoked := false, loggedErrors := 0 }
  else
    match clipboardWriteText clipOk with
    | Except.ok _ =>
        Except.ok { feedbackCalls := 1, fallbackInvoked := false, loggedErrors := 0 }
    | Except.error _ =>
        Except.ok { feedbackCalls := 1, fallbackInvoked := true,
                    loggedErrors := 1 + fallbackCopyTextToClipboard execOk }


/-! ### Basic list-operation lemmas -/

theorem mem_insertId {a e : ElemId} {l : List ElemId} :
    a ∈ insertId e l ↔ a ∈ l ∨ a = e := by
  unfold insertId
  split
  · constructor
    · exact fun h => Or.inl h
    · rintro (h | rfl)
      · exact h
      · assumption
  · simp [List.mem_append]

theorem mem_insertPair {q p : ElemId × String} {l : List (ElemId × String)} :
    q ∈ insertPair p l ↔ q ∈ l ∨ q = p := by
  unfold insertPair
  split
  · constructor
    · exact fun h => Or.inl h
    · rintro (h | rfl)
      · exact h
      · assumption
  · simp [List.mem_append]

theorem mem_removeId {a e : ElemId} {l : List ElemId} :
    a ∈ removeId e l ↔ a ∈ l ∧ a ≠ e := by
  simp [removeId, List.mem_filter]

theorem mem_removePair {q p : ElemId × String} {l : List (ElemId × String)} :
    q ∈ removePair p l ↔ q ∈ l ∧ q ≠ p := by
  simp [removePair, List.mem_filter]

/-! ### Field-invariance lemmas: neither operation touches the document or
the attribute map, so the scan result is stable across a pass. -/

theorem highlightElement_doc (e : ElemId) (s : SysState) :
    (highlightElement e s).doc = s.doc := by
  unfold highlightElement
  split
  · rfl
  · split <;> rfl

theorem highlightElement_testid (e : ElemId) (s : SysState) :
    (highlightElement e s).testid = s.testid := by
  unfold highlightElement
  split
  · rfl
  · split <;> rfl

theorem cleanupElement_doc (e : ElemId) (s : SysState) :
    (cleanupElement e s).doc = s.doc := by
  unfold cleanupElement
  split <;> rfl

theorem cleanupElement_testid (e : ElemId) (s : SysState) :
    (cleanupElement e s).testid = s.testid := by
  unfold cleanupElement
  split <;> rfl

theorem cleanupStep_doc (c : List ElemId) (s : SysState) (e : ElemId) :
    (cleanupStep c s e).doc = s.doc := by
  unfold cleanupStep
  split
  · exact cleanupElement_doc e s
  · rfl

theorem cleanupStep_testid (c : List ElemId) (s : SysState) (e : ElemId) :
    (cleanupStep c s e).testid = s.testid := by
  unfold cleanupStep
  split
  · exact cleanupElement_testid e s
  · rfl

theorem foldl_highlight_doc (l : List ElemId) (s : SysState) :
    (l.foldl (fun st e => highlightElement e st) s).doc = s.doc := by
  induction l generalizing s with
  | nil => rfl
  | cons a l ih => rw [List.foldl_cons, ih, highlightElement_doc]

theorem foldl_highlight_testid (l : List ElemId) (s : SysState) :
    (l.foldl (fun st e => highlightElement e st) s).testid = s.testid := by
  induction l generalizing s with
  | nil => rfl
  | cons a l ih => rw [List.foldl_cons, ih, highlightElement_testid]

theorem foldl_cleanupStep_doc (c : List ElemId) (l : List ElemId) (s : SysState) :
    (l.foldl (cleanupStep c) s).doc = s.doc := by
  induction l generalizing s with
  | nil => rfl
  | cons a l ih => rw [List.foldl_cons, ih, cleanupStep_doc]

theorem foldl_cleanupStep_testid (c : List ElemId) (l : List ElemId) (s : SysState) :
    (l.foldl (cleanupStep c) s).testid = s.testid := by
  induction l generalizing s with
  | nil => rfl
  | cons a l ih => rw [List.foldl_cons, ih, cleanupStep_testid]

theorem scanAndHighlight_doc (s : SysState) :
    (scanAndHighlight s).doc = s.doc := by
  unfold scanAndHighlight
  rw [foldl_cleanupStep_doc, foldl_highlight_doc]

theorem scanAndHighlight_testid (s : SysState) :
    (scanAndHighlight s).testid = s.testid := by
  unfold scanAndHighlight
  rw [foldl_cleanupStep_testid, foldl_highlight_testid]

theorem currentElems_congr {s s' : SysState} (hdoc : s'.doc = s.doc)
    (htid : s'.testid = s.testid) : currentElems s' = currentElems s := by
  unfold currentElems hasAttr getAttr
  rw [hdoc, htid]

theorem testidTruthy_congr {s s' : SysState} (htid : s'.testid = s.testid)
    (e : ElemId) : testidTruthy s' e = testidTruthy s e := by
  unfold testidTruthy getAttr
  rw [htid]

/-! ### Branch characterizations of the two per-element operations -/

theorem highlightElement_cases (e : ElemId) (s : SysState) :
    highlightElement e s = s ∨
    (testidTruthy s e = true ∧ (e, highlightClass) ∉ s.classes ∧ e ∉ s.elementData ∧
      highlightElement e s =
        { s with
          classes := insertPair (e, highlightClass) s.classes
          listeners :=
            insertPair (e, clickEvt)
              (insertPair (e, mouseleaveEvt) (insertPair (e, mouseenterEvt) s.listeners))
          elementData := insertId e s.elementData
          tracked := insertId e s.tracked
          attachCount := s.attachCount + 1 }) := by
  unfold highlightElement
  by_cases h1 : testidTruthy s e = false ∨ (e, highlightClass) ∈ s.classes
  · rw [if_pos h1]
    exact Or.inl rfl
  · rw [if_neg h1]
    by_cases h2 : e ∈ s.elementData
    · rw [if_pos h2]
      exact Or.inl rfl
    · rw [if_neg h2]
      push_neg at h1
      refine Or.inr ⟨?_, h1.2, h2, rfl⟩
      rcases Bool.eq_false_or_eq_true (testidTruthy s e) with hb | hb
      · exact hb
      · exact absurd hb h1.1

theorem cleanupElement_noop {e : ElemId} {s : SysState} (h : e ∉ s.elementData) :
    cleanupElement e s = s := by
  unfold cleanupElement
  rw [if_pos h]

theorem cleanupElement_cases (e : ElemId) (s : SysState) :
    (e ∉ s.elementData ∧ cleanupElement e s = s) ∨
    (e ∈ s.elementData ∧ cleanupElement e s =
      { s with
        listeners :=
          removePair (e, clickEvt)
            (removePair (e, mouseleaveEvt) (removePair (e, mouseenterEvt) s.listeners))
        classes := removePair (e, highlightClass) s.classes
        elementData := removeId e s.elementData
        tracked := removeId e s.tracked
        detachCount := s.detachCount + 1 }) := by
  unfold cleanupElement
  by_cases h : e ∉ s.elementData
  · rw [if_pos h]
    exact Or.inl ⟨h, rfl⟩
  · rw [if_neg h]
    exact Or.inr ⟨not_not.mp h, rfl⟩

/-! ### Monotonicity of `highlightElement`: it only ever adds entries. -/

theorem mem_tracked_of_highlight {a : ElemId} (x : ElemId) (s : SysState)
    (h : a ∈ s.tracked) : a ∈ (highlightElement x s).tracked := by
  rcases highlightElement_cases x s with heq | ⟨-, -, -, heq⟩
  · rw [heq]; exact h
  · rw [heq]; exact mem_insertId.mpr (Or.inl h)

theorem mem_elementData_of_highlight {a : ElemId} (x : ElemId) (s : SysState)
    (h : a ∈ s.elementData) : a ∈ (highlightElement x s).elementData := by
  rcases highlightElement_cases x s with heq | ⟨-, -, -, heq⟩
  · rw [heq]; exact h
  · rw [heq]; exact mem_insertId.mpr (Or.inl h)

theorem mem_classes_of_highlight {p : ElemId × String} (x : ElemId) (s : SysState)
    (h : p ∈ s.classes) : p ∈ (highlightElement x s).classes := by
  rcases highlightElement_cases x s with heq | ⟨-, -, -, heq⟩
  · rw [heq]; exact h
  · rw [heq]; exact mem_insertPair.mpr (Or.inl h)

theorem mem_listeners_of_highlight {p : ElemId × String} (x : ElemId) (s : SysState)
    (h : p ∈ s.listeners) : p ∈ (highlightElement x s).listeners := by
  rcases highlightElement_cases x s with heq | ⟨-, -, -, heq⟩
  · rw [heq]; exact h
  · rw [heq]
    exact mem_insertPair.mpr
      (Or.inl (mem_insertPair.mpr (Or.inl (mem_insertPair.mpr (Or.inl h)))))

/-! ### `highlightElement x` touches no entry of another element. -/

theorem not_mem_elementData_of_highlight {a x : ElemId} {s : SysState} (hne : a ≠ x)
    (h : a ∉ s.elementData) : a ∉ (highlightElement x s).elementData := by
  rcases highlightElement_cases x s with heq | ⟨-, -, -, heq⟩
  · rw [heq]; exact h
  · rw [heq]
    intro hm
    rcases mem_insertId.mp hm with hm | hm
    · exact h hm
    · exact hne hm

theorem not_mem_classes_of_highlight {a x : ElemId} {cls : String} {s : SysState}
    (hne : a ≠ x) (h : (a, cls) ∉ s.classes) :
    (a, cls) ∉ (highlightElement x s).classes := by
  rcases highlightElement_cases x s with heq | ⟨-, -, -, heq⟩
  · rw [heq]; exact h
  · rw [heq]
    intro hm
    rcases mem_insertPair.mp hm with hm | hm
    · exact h hm
    · exact hne (congrArg Prod.fst hm)

/-! ### `cleanupElement` only ever removes entries. -/

theorem mem_tracked_of_cleanup {a x : ElemId} {s : SysState}
    (h : a ∈ (cleanupElement x s).tracked) : a ∈ s.tracked := by
  rcases cleanupElement_cases x s with ⟨-, heq⟩ | ⟨-, heq⟩
  · rwa [heq] at h
  · rw [heq] at h
    exact (mem_removeId.mp h).1

theorem mem_elementData_of_cleanup {a x : ElemId} {s : SysState}
    (h : a ∈ (cleanupElement x s).elementData) : a ∈ s.elementData := by
  rcases cleanupElement_cases x s with ⟨-, heq⟩ | ⟨-, heq⟩
  · rwa [heq] at h
  · rw [heq] at h
    exact (mem_removeId.mp h).1

theorem mem_classes_of_cleanup {p : ElemId × String} {x : ElemId} {s : SysState}
    (h : p ∈ (cleanupElement x s).classes) : p ∈ s.classes := by
  rcases cleanupElement_cases x s with ⟨-, heq⟩ | ⟨-, heq⟩
  · rwa [heq] at h
  · rw [heq] at h
    exact (mem_removePair.mp h).1

theorem mem_listeners_of_cleanup {p : ElemId × String} {x : ElemId} {s : SysState}
    (h : p ∈ (cleanupElement x s).listeners) : p ∈ s.listeners := by
  rcases cleanupElement_cases x s with ⟨-, heq⟩ | ⟨-, heq⟩
  · rwa [heq] at h
  · rw [heq] at h
    exact (mem_removePair.mp (mem_removePair.mp (mem_removePair.mp h).1).1).1

/-! ### `cleanupElement x` leaves every entry of another element in place. -/

theorem mem_tracked_of_cleanup_ne {a x : ElemId} {s : SysState} (hne : a ≠ x)
    (h : a ∈ s.tracked) : a ∈ (cleanupElement x s).tracked := by
  rcases cleanupElement_cases x s with ⟨-, heq⟩ | ⟨-, heq⟩
  · rw [heq]; exact h
  · rw [heq]; exact mem_removeId.mpr ⟨h, hne⟩

theorem mem_elementData_of_cleanup_ne {a x : ElemId} {s : SysState} (hne : a ≠ x)
    (h : a ∈ s.elementData) : a ∈ (cleanupElement x s).elementData := by
  rcases cleanupElement_cases x s with ⟨-, heq⟩ | ⟨-, heq⟩
  · rw [heq]; exact h
  · rw [heq]; exact mem_removeId.mpr ⟨h, hne⟩

theorem mem_classes_of_cleanup_ne {a x : ElemId} {cls : String} {s : SysState}
    (hne : a ≠ x) (h : (a, cls) ∈ s.classes) :
    (a, cls) ∈ (cleanupElement x s).classes := by
  rcases cleanupElement_cases x s with ⟨-, heq⟩ | ⟨-, heq⟩
  · rw [heq]; exact h
  · rw [heq]
    exact mem_removePair.mpr ⟨h, fun hp => hne (congrArg Prod.fst hp)⟩

theorem mem_listeners_of_cleanup_ne {a x : ElemId} {ev : String} {s : SysState}
    (hne : a ≠ x) (h : (a, ev) ∈ s.listeners) :
    (a, ev) ∈ (cleanupElement x s).listeners := by
  rcases cleanupElement_cases x s with ⟨-, heq⟩ | ⟨-, heq⟩
  · rw [heq]; exact h
  · rw [heq]
    refine mem_removePair.mpr ⟨mem_removePair.mpr ⟨mem_removePair.mpr ⟨h, ?_⟩, ?_⟩, ?_⟩ <;>
      exact fun hp => hne (congrArg Prod.fst hp)

/-! ### The skip condition of `highlightElement` and its stability -/

theorem highlightElement_of_skips {e : ElemId} {s : SysState} (h : hlSkips e s) :
    highlightElement e s = s := by
  unfold highlightElement
  rcases h with h | h | h
  · rw [if_pos (Or.inl h)]
  · rw [if_pos (Or.inr h)]
  · by_cases h1 : testidTruthy s e = false ∨ (e, highlightClass) ∈ s.classes
    · rw [if_pos h1]
    · rw [if_neg h1, if_pos h]

theorem hlSkips_self (e : ElemId) (s : SysState) :
    hlSkips e (highlightElement e s) := by
  rcases highlightElement_cases e s with heq | ⟨-, -, -, heq⟩
  · rw [heq]
    rcases highlightElement_cases e s with heq2 | ⟨h1, h2, h3, heq2⟩
    · unfold highlightElement at heq2
      by_cases hc1 : testidTruthy s e = false ∨ (e, highlightClass) ∈ s.classes
      · rcases hc1 with hc | hc
        · exact Or.inl hc
        · exact Or.inr (Or.inl hc)
      · rw [if_neg hc1] at heq2
        by_cases hc2 : e ∈ s.elementData
        · exact Or.inr (Or.inr hc2)
        · rw [if_neg hc2] at heq2
          exact Or.inr (Or.inr (by
            rw [← heq2]
            exact mem_insertId.mpr (Or.inr rfl)))
    · rw [heq] at heq2
      rw [heq2]
      exact Or.inr (Or.inl (mem_insertPair.mpr (Or.inr rfl)))
  · rw [heq]
    exact Or.inr (Or.inl (mem_insertPair.mpr (Or.inr rfl)))

theorem hlSkips_highlight (e x : ElemId) (s : SysState) (h : hlSkips e s) :
    hlSkips e (highlightElement x s) := by
  rcases h with h | h | h
  · exact Or.inl (by rw [testidTruthy_congr (highlightElement_testid x s), h])
  · exact Or.inr (Or.inl (mem_classes_of_highlight x s h))
  · exact Or.inr (Or.inr (mem_elementData_of_highlight x s h))

theorem hlSkips_foldl_highlight (e : ElemId) (l : List ElemId) (s : SysState)
    (h : hlSkips e s) :
    hlSkips e (l.foldl (fun st x => highlightElement x st) s) := by
  induction l generalizing s with
  | nil => exact h
  | cons a l ih => exact ih (highlightElement a s) (hlSkips_highlight e a s h)

theorem hlSkips_of_mem_foldl (e : ElemId) (l : List ElemId) (s : SysState)
    (h : e ∈ l) :
    hlSkips e (l.foldl (fun st x => highlightElement x st) s) := by
  induction l generalizing s with
  | nil => cases h
  | cons a l ih =>
    rcases List.mem_cons.mp h with rfl | h
    · exact hlSkips_foldl_highlight e l (highlightElement e s) (hlSkips_self e s)
    · exact ih (highlightElement a s) h

theorem hlSkips_cleanupStep (e : ElemId) (c : List ElemId) (s : SysState)
    (x : ElemId) (hec : e ∈ c) (hed : e ∈ s.doc) (h : hlSkips e s) :
    hlSkips e (cleanupStep c s x) := by
  unfold cleanupStep
  split
  · next hcond =>
    by_cases hxe : x = e
    · subst hxe
      rcases hcond with hc | hc
      · exact absurd hec hc
      · exact absurd hed hc
    · rcases h with h | h | h
      · exact Or.inl (by rw [testidTruthy_congr (cleanupElement_testid x s), h])
      · exact Or.inr (Or.inl (mem_classes_of_cleanup_ne (fun he => hxe he.symm) h))
      · exact Or.inr (Or.inr (mem_elementData_of_cleanup_ne (fun he => hxe he.symm) h))
  · exact h

theorem hlSkips_foldl_cleanupStep (e : ElemId) (c : List ElemId) (l : List ElemId)
    (s : SysState) (hec : e ∈ c) (hed : e ∈ s.doc) (h : hlSkips e s) :
    hlSkips e (l.foldl (cleanupStep c) s) := by
  induction l generalizing s with
  | nil => exact h
  | cons a l ih =>
    refine ih (cleanupStep c s a) ?_ (hlSkips_cleanupStep e c s a hec hed h)
    rw [cleanupStep_doc]
    exact hed

/-! ### The annotated and detached element predicates -/

theorem highlightElement_annotates {e : ElemId} {s : SysState}
    (h1 : testidTruthy s e = true) (h2 : (e, highlightClass) ∉ s.classes)
    (h3 : e ∉ s.elementData) : annotated e (highlightElement e s) := by
  rcases highlightElement_cases e s with heq | ⟨-, -, -, heq⟩
  · unfold highlightElement at heq
    rw [if_neg (by
        push_neg
        exact ⟨by simp [h1], h2⟩),
      if_neg h3] at heq
    exact absurd (congrArg SysState.attachCount heq) (by
      simp)
  · rw [heq]
    refine ⟨mem_insertId.mpr (Or.inr rfl), mem_insertId.mpr (Or.inr rfl),
      mem_insertPair.mpr (Or.inr rfl), ?_, ?_, ?_⟩
    · exact mem_insertPair.mpr (Or.inl (mem_insertPair.mpr
        (Or.inl (mem_insertPair.mpr (Or.inr rfl)))))
    · exact mem_insertPair.mpr (Or.inl (mem_insertPair.mpr (Or.inr rfl)))
    · exact mem_insertPair.mpr (Or.inr rfl)

theorem annotated_highlight (e x : ElemId) (s : SysState) (h : annotated e s) :
    annotated e (highlightElement x s) := by
  obtain ⟨h1, h2, h3, h4, h5, h6⟩ := h
  exact ⟨mem_tracked_of_highlight x s h1, mem_elementData_of_highlight x s h2,
    mem_classes_of_highlight x s h3, mem_listeners_of_highlight x s h4,
    mem_listeners_of_highlight x s h5, mem_listeners_of_highlight x s h6⟩

theorem annotated_foldl_highlight (e : ElemId) (l : List ElemId) (s : SysState)
    (h : annotated e s) :
    annotated e (l.foldl (fun st x => highlightElement x st) s) := by
  induction l generalizing s with
  | nil => exact h
  | cons a l ih => exact ih (highlightElement a s) (annotated_highlight e a s h)

theorem annotated_of_mem_foldl (e : ElemId) (l : List ElemId) (s : SysState)
    (hmem : e ∈ l) (h1 : testidTruthy s e = true)
    (h2 : (e, highlightClass) ∉ s.classes) (h3 : e ∉ s.elementData) :
    annotated e (l.foldl (fun st x => highlightElement x st) s) := by
  induction l generalizing s with
  | nil => cases hmem
  | cons a l ih =>
    by_cases hae : a = e
    · subst hae
      exact annotated_foldl_highlight a l (highlightElement a s)
        (highlightElement_annotates h1 h2 h3)
    · rcases List.mem_cons.mp hmem with rfl | hmem
      · exact absurd rfl hae
      · refine ih (highlightElement a s) hmem ?_ ?_ ?_
        · rw [testidTruthy_congr (highlightElement_testid a s)]
          exact h1
        · exact not_mem_classes_of_highlight (fun he => hae he.symm) h2
        · exact not_mem_elementData_of_highlight (fun he => hae he.symm) h3

theorem annotated_cleanupStep (e : ElemId) (c : List ElemId) (s : SysState)
    (x : ElemId) (hec : e ∈ c) (hed : e ∈ s.doc) (h : annotated e s) :
    annotated e (cleanupStep c s x) := by
  unfold cleanupStep
  split
  · next hcond =>
    by_cases hxe : x = e
    · subst hxe
      rcases hcond with hc | hc
      · exact absurd hec hc
      · exact absurd hed hc
    · obtain ⟨h1, h2, h3, h4, h5, h6⟩ := h
      have hne : e ≠ x := fun he => hxe he.symm
      exact ⟨mem_tracked_of_cleanup_ne hne h1, mem_elementData_of_cleanup_ne hne h2,
        mem_classes_of_cleanup_ne hne h3, mem_listeners_of_cleanup_ne hne h4,
        mem_listeners_of_cleanup_ne hne h5, mem_listeners_of_cleanup_ne hne h6⟩
  · exact h

theorem annotated_foldl_cleanupStep (e : ElemId) (c : List ElemId)
    (l : List ElemId) (s : SysState) (hec : e ∈ c) (hed : e ∈ s.doc)
    (h : annotated e s) : annotated e (l.foldl (cleanupStep c) s) := by
  induction l generalizing s with
  | nil => exact h
  | cons a l ih =>
    refine ih (cleanupStep c s a) ?_ (annotated_cleanupStep e c s a hec hed h)
    rw [cleanupStep_doc]
    exact hed

theorem cleanupElement_detaches {e : ElemId} {s : SysState}
    (h : e ∈ s.elementData) : detached e (cleanupElement e s) := by
  rcases cleanupElement_cases e s with ⟨hn, -⟩ | ⟨-, heq⟩
  · exact absurd h hn
  · rw [heq]
    refine ⟨fun hm => (mem_removeId.mp hm).2 rfl, fun hm => (mem_removeId.mp hm).2 rfl,
      fun hm => (mem_removePair.mp hm).2 rfl, ?_, ?_, ?_⟩
    · exact fun hm => (mem_removePair.mp (mem_removePair.mp (mem_removePair.mp hm).1).1).2 rfl
    · exact fun hm => (mem_removePair.mp (mem_removePair.mp hm).1).2 rfl
    · exact fun hm => (mem_removePair.mp hm).2 rfl

theorem detached_cleanup (e x : ElemId) (s : SysState) (h : detached e s) :
    detached e (cleanupElement x s) := by
  obtain ⟨h1, h2, h3, h4, h5, h6⟩ := h
  exact ⟨fun hm => h1 (mem_tracked_of_cleanup hm),
    fun hm => h2 (mem_elementData_of_cleanup hm),
    fun hm => h3 (mem_classes_of_cleanup hm),
    fun hm => h4 (mem_listeners_of_cleanup hm),
    fun hm => h5 (mem_listeners_of_cleanup hm),
    fun hm => h6 (mem_listeners_of_cleanup hm)⟩

theorem detached_cleanupStep (e : ElemId) (c : List ElemId) (s : SysState)
    (x : ElemId) (h : detached e s) : detached e (cleanupStep c s x) := by
  unfold cleanupStep
  split
  · exact detached_cleanup e x s h
  · exact h

theorem detached_foldl_cleanupStep (e : ElemId) (c : List ElemId)
    (l : List ElemId) (s : SysState) (h : detached e s) :
    detached e (l.foldl (cleanupStep c) s) := by
  induction l generalizing s with
  | nil => exact h
  | cons a l ih => exact ih (cleanupStep c s a) (detached_cleanupStep e c s a h)

/-! ### Fixed points of folds -/

theorem foldl_fixed {α β : Type} (f : β → α → β) (l : List α) (b : β)
    (h : ∀ x ∈ l, f b x = b) : l.foldl f b = b := by
  induction l with
  | nil => rfl
  | cons a l ih =>
    rw [List.foldl_cons, h a (List.mem_cons_self a l)]
    exact ih fun x hx => h x (List.mem_cons_of_mem a hx)

/-! ### The cleanup loop of `scanAndHighlight` -/

theorem mem_tracked_of_cleanupStep {a : ElemId} {c : List ElemId} {s : SysState}
    {x : ElemId} (h : a ∈ (cleanupStep c s x).tracked) : a ∈ s.tracked := by
  unfold cleanupStep at h
  split at h
  · exact mem_tracked_of_cleanup h
  · exact h

theorem not_mem_elementData_of_cleanupStep {a : ElemId} {c : List ElemId}
    {s : SysState} {x : ElemId} (h : a ∉ s.elementData) :
    a ∉ (cleanupStep c s x).elementData := by
  unfold cleanupStep
  split
  · exact fun hm => h (mem_elementData_of_cleanup hm)
  · exact h

/-- After the cleanup loop has visited every element of `l`, every element
still tracked either matches the scan (and is in the document) or has no
side-table entry, so a later cleanup visit to it does nothing. -/
theorem foldl_cleanupStep_cond (c : List ElemId) :
    ∀ (l : List ElemId) (s : SysState),
      (∀ e ∈ s.tracked, e ∈ l ∨ (e ∈ c ∧ e ∈ s.doc) ∨ e ∉ s.elementData) →
      ∀ e ∈ (l.foldl (cleanupStep c) s).tracked,
        (e ∈ c ∧ e ∈ (l.foldl (cleanupStep c) s).doc) ∨
          e ∉ (l.foldl (cleanupStep c) s).elementData := by
  intro l
  induction l with
  | nil =>
    intro s h e he
    simp only [List.foldl_nil] at he ⊢
    rcases h e he with h0 | h0
    · exact absurd h0 (List.not_mem_nil e)
    · exact h0
  | cons a l ih =>
    intro s h e he
    rw [List.foldl_cons] at he ⊢
    refine ih (cleanupStep c s a) ?_ e he
    intro f hf
    have hfs : f ∈ s.tracked := mem_tracked_of_cleanupStep hf
    rcases h f hfs with h0 | h0 | h0
    · rcases List.mem_cons.mp h0 with rfl | h1
      · by_cases hcd : f ∉ c ∨ f ∉ s.doc
        · have hstep : cleanupStep c s f = cleanupElement f s := by
            unfold cleanupStep
            rw [if_pos hcd]
          rw [hstep] at hf
          by_cases hed : f ∈ s.elementData
          · exact absurd hf (cleanupElement_detaches hed).1
          · refine Or.inr (Or.inr ?_)
            rw [hstep, cleanupElement_noop hed]
            exact hed
        · push_neg at hcd
          refine Or.inr (Or.inl ⟨hcd.1, ?_⟩)
          rw [cleanupStep_doc]
          exact hcd.2
      · exact Or.inl h1
    · refine Or.inr (Or.inl ⟨h0.1, ?_⟩)
      rw [cleanupStep_doc]
      exact h0.2
    · exact Or.inr (Or.inr (not_mem_elementData_of_cleanupStep h0))

/-- The cleanup loop fully detaches every visited tracked element with a
side-table entry that fails the keep condition. -/
theorem foldl_cleanupStep_detaches (c : List ElemId) :
    ∀ (l : List ElemId) (s : SysState) (e : ElemId),
      e ∈ l → e ∈ s.elementData → (e ∉ c ∨ e ∉ s.doc) →
      detached e (l.foldl (cleanupStep c) s) := by
  intro l
  induction l with
  | nil =>
    intro s e hmem
    exact absurd hmem (List.not_mem_nil e)
  | cons a l ih =>
    intro s e hmem hed hcond
    rw [List.foldl_cons]
    by_cases hae : a = e
    · subst hae
      have hstep : cleanupStep c s a = cleanupElement a s := by
        unfold cleanupStep
        rw [if_pos hcond]
      rw [hstep]
      exact detached_foldl_cleanupStep a c l (cleanupElement a s)
        (cleanupElement_detaches hed)
    · have hmem' : e ∈ l := by
        rcases List.mem_cons.mp hmem with h | h
        · exact absurd h.symm hae
        · exact h
      refine ih (cleanupStep c s a) e hmem' ?_ ?_
      · unfold cleanupStep
        split
        · exact mem_elementData_of_cleanup_ne (fun he => hae he.symm) hed
        · exact hed
      · rw [cleanupStep_doc]
        exact hcond

/-! ### Small auxiliary lemmas -/

theorem mem_insertId_ne {a e : ElemId} (hne : a ≠ e) {l : List ElemId} :
    a ∈ insertId e l ↔ a ∈ l :=
  ⟨fun h => (mem_insertId.mp h).resolve_right hne, fun h => mem_insertId.mpr (Or.inl h)⟩

theorem mem_insertPair_ne {q p : ElemId × String} (hne : q ≠ p)
    {l : List (ElemId × String)} : q ∈ insertPair p l ↔ q ∈ l :=
  ⟨fun h => (mem_insertPair.mp h).resolve_right hne, fun h => mem_insertPair.mpr (Or.inl h)⟩

theorem hasAttr_of_truthy {s : SysState} {e : ElemId}
    (h : testidTruthy s e = true) : hasAttr s e = true := by
  unfold testidTruthy at h
  unfold hasAttr
  cases hg : getAttr s e
  · rw [hg] at h
    cases h
  · rfl

theorem truthy_of_getAttr {s : SysState} {e : ElemId} {t : String}
    (h : getAttr s e = some t) (hne : t ≠ "") : testidTruthy s e = true := by
  unfold testidTruthy
  rw [h]
  simp [hne]

theorem mem_tracked_foldl_highlight {a : ElemId} (l : List ElemId) (s : SysState)
    (h : a ∈ s.tracked) :
    a ∈ (l.foldl (fun st e => highlightElement e st) s).tracked := by
  induction l generalizing s with
  | nil => exact h
  | cons x l ih => exact ih (highlightElement x s) (mem_tracked_of_highlight x s h)

theorem mem_elementData_foldl_highlight {a : ElemId} (l : List ElemId) (s : SysState)
    (h : a ∈ s.elementData) :
    a ∈ (l.foldl (fun st e => highlightElement e st) s).elementData := by
  induction l generalizing s with
  | nil => exact h
  | cons x l ih => exact ih (highlightElement x s) (mem_elementData_of_highlight x s h)

/-! ### The reconciliation pass annotates every fresh matching element -/

theorem scanAndHighlight_annotates (s : SysState) (e : ElemId)
    (hd : e ∈ s.doc) (ht : testidTruthy s e = true)
    (hc : (e, highlightClass) ∉ s.classes) (hm : e ∉ s.elementData) :
    annotated e (scanAndHighlight s) := by
  have hcur : e ∈ currentElems s := List.mem_filter.mpr ⟨hd, hasAttr_of_truthy ht⟩
  unfold scanAndHighlight
  have h1 := annotated_of_mem_foldl e (currentElems s) s hcur ht hc hm
  refine annotated_foldl_cleanupStep e (currentElems s) _ _ hcur ?_ h1
  rw [foldl_highlight_doc]
  exact hd

/-- C1, counterexample.  The claim asserts that an element whose
`data-testid` is non-empty and which already carries the class
`test-id-highlight` without a side-table entry still gets annotated by
`scanAndHighlight`.  In the code the class check in `highlightElement` comes
first, so such an element is skipped: after the pass it is neither tracked
nor in the side table. -/
theorem class_without_entry_not_annotated :
    getAttr (SysState.mk [0] [(0, "login-btn")] [(0, highlightClass)] [] [] [] 0 0) 0 =
      some "login-btn" ∧
    0 ∉ (scanAndHighlight
      (SysState.mk [0] [(0, "login-btn")] [(0, highlightClass)] [] [] [] 0 0)).tracked ∧
    0 ∉ (scanAndHighlight
      (SysState.mk [0] [(0, "login-btn")] [(0, highlightClass)] [] [] [] 0 0)).elementData := by
  refine ⟨rfl, ?_, ?_⟩ <;> decide

/-- C1 (amended): after a reconciliation pass, every element in the document
with a non-empty `data-testid` that does not already carry the presentation
class and has no side-table entry is in the Tracked Element Set, has a
side-table entry and carries the class.  (Annotation-presence is gated first
by the visible class and only then by the side-table: an element carrying
the class without an entry is skipped, which is what the counterexample
shows.) -/
theorem scan_coverage (s : SysState) (e : ElemId) (t : String)
    (hd : e ∈ s.doc) (ht : getAttr s e = some t) (hne : t ≠ "")
    (hc : (e, highlightClass) ∉ s.classes) (hm : e ∉ s.elementData) :
    e ∈ (scanAndHighlight s).tracked ∧ e ∈ (scanAndHighlight s).elementData ∧
    (e, highlightClass) ∈ (scanAndHighlight s).classes := by
  obtain ⟨h1, h2, h3, -⟩ :=
    scanAndHighlight_annotates s e hd (truthy_of_getAttr ht hne) hc hm
  exact ⟨h1, h2, h3⟩

theorem scan_coverage_witness :
    1 ∈ (scanAndHighlight (SysState.mk [1] [(1, "x")] [] [] [] [] 0 0)).tracked ∧
    1 ∈ (scanAndHighlight (SysState.mk [1] [(1, "x")] [] [] [] [] 0 0)).elementData ∧
    (1, highlightClass) ∈
      (scanAndHighlight (SysState.mk [1] [(1, "x")] [] [] [] [] 0 0)).classes :=
  scan_coverage _ 1 "x" (by decide) rfl (by decide) (by decide) (by decide)

/-- C3: a tracked element (with its side-table entry, which the code keeps
in sync with tracked-set membership) that is absent from the scan result or
detached from the document at the start of a pass is fully detached by the
pass: removed from the Tracked Element Set and the side table, stripped of
the presentation class and of the three listeners installed by
`highlightElement`. -/
theorem scan_cleans_stale (s : SysState) (e : ElemId)
    (htr : e ∈ s.tracked) (hed : e ∈ s.elementData)
    (habs : e ∉ currentElems s ∨ e ∉ s.doc) :
    e ∉ (scanAndHighlight s).tracked ∧ e ∉ (scanAndHighlight s).elementData ∧
    (e, highlightClass) ∉ (scanAndHighlight s).classes ∧
    (e, mouseenterEvt) ∉ (scanAndHighlight s).listeners ∧
    (e, mouseleaveEvt) ∉ (scanAndHighlight s).listeners ∧
    (e, clickEvt) ∉ (scanAndHighlight s).listeners := by
  have hdet : detached e (scanAndHighlight s) := by
    unfold scanAndHighlight
    refine foldl_cleanupStep_detaches (currentElems s) _ _ e ?_ ?_ ?_
    · exact mem_tracked_foldl_highlight (currentElems s) s htr
    · exact mem_elementData_foldl_highlight (currentElems s) s hed
    · rw [foldl_highlight_doc]
      exact habs
  exact hdet

theorem scan_cleans_stale_witness :
    5 ∈ (SysState.mk [] [] [(5, highlightClass)]
          [(5, mouseenterEvt), (5, mouseleaveEvt), (5, clickEvt)] [5] [5] 1 0).tracked ∧
    5 ∉ (scanAndHighlight (SysState.mk [] [] [(5, highlightClass)]
          [(5, mouseenterEvt), (5, mouseleaveEvt), (5, clickEvt)] [5] [5] 1 0)).tracked ∧
    5 ∉ (scanAndHighlight (SysState.mk [] [] [(5, highlightClass)]
          [(5, mouseenterEvt), (5, mouseleaveEvt), (5, clickEvt)] [5] [5] 1 0)).elementData ∧
    (5, highlightClass) ∉ (scanAndHighlight (SysState.mk [] [] [(5, highlightClass)]
          [(5, mouseenterEvt), (5, mouseleaveEvt), (5, clickEvt)] [5] [5] 1 0)).classes :=
  ⟨by decide, by
    obtain ⟨h1, h2, h3, -⟩ :=
      scan_cleans_stale (SysState.mk [] [] [(5, highlightClass)]
          [(5, mouseenterEvt), (5, mouseleaveEvt), (5, clickEvt)] [5] [5] 1 0) 5
        (by decide) (by decide) (Or.inl (by decide))
    exact ⟨h1, h2, h3⟩⟩

/-- C10: calling `cleanupElement` on an element without a side-table entry
is a total no-op: the guard `if (!elementData.has(el)) return;` fires, so
the state — listeners, class list, side table, tracked set and counters —
is returned unchanged.  Totality of the Lean function reflects that the
early return cannot throw. -/
theorem cleanupElement_without_entry_noop (s : SysState) (e : ElemId)
    (h : e ∉ s.elementData) : cleanupElement e s = s :=
  cleanupElement_noop h

theorem cleanupElement_without_entry_noop_witness :
    3 ∉ initState.elementData ∧ cleanupElement 3 initState = initState :=
  ⟨by decide, cleanupElement_without_entry_noop initState 3 (by decide)⟩

/-! ### A pass reaches a fixed point -/

theorem scanAndHighlight_def (s : SysState) :
    scanAndHighlight s =
      ((currentElems s).foldl (fun st e => highlightElement e st) s).tracked.foldl
        (cleanupStep (currentElems s))
        ((currentElems s).foldl (fun st e => highlightElement e st) s) := rfl

theorem scanAndHighlight_eq_of (s' : SysState)
    (hskips : ∀ e ∈ currentElems s', hlSkips e s')
    (hcond : ∀ e ∈ s'.tracked,
      (e ∈ currentElems s' ∧ e ∈ s'.doc) ∨ e ∉ s'.elementData) :
    scanAndHighlight s' = s' := by
  rw [scanAndHighlight_def]
  have h1 : (currentElems s').foldl (fun st e => highlightElement e st) s' = s' :=
    foldl_fixed _ _ _ (fun e he => highlightElement_of_skips (hskips e he))
  rw [h1]
  refine foldl_fixed _ _ _ (fun e he => ?_)
  rcases hcond e he with ⟨hc, hd⟩ | hm
  · unfold cleanupStep
    rw [if_neg (by
      push_neg
      exact ⟨hc, hd⟩)]
  · unfold cleanupStep
    split
    · exact cleanupElement_noop hm
    · rfl

theorem scanAndHighlight_fixed (s : SysState) :
    scanAndHighlight (scanAndHighlight s) = scanAndHighlight s := by
  have hdoc : (scanAndHighlight s).doc = s.doc := scanAndHighlight_doc s
  have htid : (scanAndHighlight s).testid = s.testid := scanAndHighlight_testid s
  have hcur : currentElems (scanAndHighlight s) = currentElems s :=
    currentElems_congr hdoc htid
  have hskips : ∀ e ∈ currentElems s, hlSkips e (scanAndHighlight s) := by
    intro e he
    have hed : e ∈ s.doc := (List.mem_filter.mp he).1
    unfold scanAndHighlight
    refine hlSkips_foldl_cleanupStep e (currentElems s) _ _ he ?_ ?_
    · rw [foldl_highlight_doc]
      exact hed
    · exact hlSkips_of_mem_foldl e (currentElems s) s he
  have hcond : ∀ e ∈ (scanAndHighlight s).tracked,
      (e ∈ currentElems s ∧ e ∈ (scanAndHighlight s).doc) ∨
        e ∉ (scanAndHighlight s).elementData := by
    unfold scanAndHighlight
    exact foldl_cleanupStep_cond (currentElems s) _ _ (fun e he => Or.inl he)
  refine scanAndHighlight_eq_of (scanAndHighlight s) ?_ ?_
  · intro e he
    rw [hcur] at he
    exact hskips e he
  · intro e he
    rcases hcond e he with ⟨hc, hd⟩ | hm
    · rw [hcur]
      exact Or.inl ⟨hc, hd⟩
    · exact Or.inr hm

/-- C2: `scanAndHighlight` is idempotent.  With no intervening DOM change a
second pass returns the state of the first unchanged — in particular the
Tracked Element Set is the same and the attach/detach operation counters do
not move, i.e. the second pass performs zero additional `addEventListener` /
class-add / side-table-insert bundles and zero additional detach bundles. -/
theorem scanAndHighlight_idempotent (s : SysState) :
    scanAndHighlight (scanAndHighlight s) = scanAndHighlight s ∧
    (scanAndHighlight (scanAndHighlight s)).tracked = (scanAndHighlight s).tracked ∧
    (scanAndHighlight (scanAndHighlight s)).attachCount =
      (scanAndHighlight s).attachCount ∧
    (scanAndHighlight (scanAndHighlight s)).detachCount =
      (scanAndHighlight s).detachCount := by
  have h := scanAndHighlight_fixed s
  exact ⟨h, congrArg SysState.tracked h, congrArg SysState.attachCount h,
    congrArg SysState.detachCount h⟩

/-! ### Preservation of the membership invariant -/

theorem membershipInv_highlight (x : ElemId) (s : SysState)
    (h : membershipInv s) : membershipInv (highlightElement x s) := by
  rcases highlightElement_cases x s with heq | ⟨-, -, -, heq⟩
  · rw [heq]
    exact h
  · intro a
    obtain ⟨i1, i2, i3, i4⟩ := h a
    rw [heq]
    dsimp only
    by_cases hax : a = x
    · subst hax
      refine ⟨iff_of_true ?_ ?_, iff_of_true ?_ ?_, iff_of_true ?_ ?_,
        iff_of_true ?_ ?_⟩
      · exact mem_insertId.mpr (Or.inr rfl)
      · exact mem_insertId.mpr (Or.inr rfl)
      · exact mem_insertId.mpr (Or.inr rfl)
      · exact mem_insertPair.mpr
          (Or.inl (mem_insertPair.mpr (Or.inl (mem_insertPair.mpr (Or.inr rfl)))))
      · exact mem_insertId.mpr (Or.inr rfl)
      · exact mem_insertPair.mpr (Or.inl (mem_insertPair.mpr (Or.inr rfl)))
      · exact mem_insertId.mpr (Or.inr rfl)
      · exact mem_insertPair.mpr (Or.inr rfl)
    · have hpair : ∀ ev ev' : String, (a, ev) ≠ (x, ev') :=
        fun ev ev' hp => hax (congrArg Prod.fst hp)
      refine ⟨?_, ?_, ?_, ?_⟩
      · rw [mem_insertId_ne hax, mem_insertId_ne hax]
        exact i1
      · rw [mem_insertId_ne hax, mem_insertPair_ne (hpair _ _),
          mem_insertPair_ne (hpair _ _), mem_insertPair_ne (hpair _ _)]
        exact i2
      · rw [mem_insertId_ne hax, mem_insertPair_ne (hpair _ _),
          mem_insertPair_ne (hpair _ _), mem_insertPair_ne (hpair _ _)]
        exact i3
      · rw [mem_insertId_ne hax, mem_insertPair_ne (hpair _ _),
          mem_insertPair_ne (hpair _ _), mem_insertPair_ne (hpair _ _)]
        exact i4

theorem membershipInv_cleanup (x : ElemId) (s : SysState)
    (h : membershipInv s) : membershipInv (cleanupElement x s) := by
  by_cases hed : x ∈ s.elementData
  · intro a
    by_cases hax : a = x
    · subst hax
      obtain ⟨d1, d2, -, d4, d5, d6⟩ := cleanupElement_detaches hed
      exact ⟨iff_of_false d1 d2, iff_of_false d1 d4, iff_of_false d1 d5,
        iff_of_false d1 d6⟩
    · obtain ⟨i1, i2, i3, i4⟩ := h a
      have t_iff : a ∈ (cleanupElement x s).tracked ↔ a ∈ s.tracked :=
        ⟨mem_tracked_of_cleanup, mem_tracked_of_cleanup_ne hax⟩
      have e_iff : a ∈ (cleanupElement x s).elementData ↔ a ∈ s.elementData :=
        ⟨mem_elementData_of_cleanup, mem_elementData_of_cleanup_ne hax⟩
      have l_iff : ∀ ev : String,
          ((a, ev) ∈ (cleanupElement x s).listeners ↔ (a, ev) ∈ s.listeners) :=
        fun ev => ⟨mem_listeners_of_cleanup, mem_listeners_of_cleanup_ne hax⟩
      exact ⟨t_iff.trans (i1.trans e_iff.symm),
        t_iff.trans (i2.trans (l_iff _).symm),
        t_iff.trans (i3.trans (l_iff _).symm),
        t_iff.trans (i4.trans (l_iff _).symm)⟩
  · rw [cleanupElement_noop hed]
    exact h

theorem membershipInv_cleanupStep (c : List ElemId) (s : SysState) (x : ElemId)
    (h : membershipInv s) : membershipInv (cleanupStep c s x) := by
  unfold cleanupStep
  split
  · exact membershipInv_cleanup x s h
  · exact h

theorem membershipInv_foldl_highlight (l : List ElemId) (s : SysState)
    (h : membershipInv s) :
    membershipInv (l.foldl (fun st e => highlightElement e st) s) := by
  induction l generalizing s with
  | nil => exact h
  | cons a l ih => exact ih (highlightElement a s) (membershipInv_highlight a s h)

theorem membershipInv_foldl_cleanupStep (c : List ElemId) (l : List ElemId)
    (s : SysState) (h : membershipInv s) :
    membershipInv (l.foldl (cleanupStep c) s) := by
  induction l generalizing s with
  | nil => exact h
  | cons a l ih => exact ih (cleanupStep c s a) (membershipInv_cleanupStep c s a h)

theorem membershipInv_foldl_cleanup (l : List ElemId) (s : SysState)
    (h : membershipInv s) :
    membershipInv (l.foldl (fun st e => cleanupElement e st) s) := by
  induction l generalizing s with
  | nil => exact h
  | cons a l ih => exact ih (cleanupElement a s) (membershipInv_cleanup a s h)

theorem membershipInv_init : membershipInv initState := by
  intro e
  refine ⟨?_, ?_, ?_, ?_⟩ <;> simp [initState]

/-- C9: the membership invariant — an element is in `trackedElements` iff it
has an `elementData` side-table entry iff it carries each of the three
listeners installed by this script — is preserved by every operation:
`highlightElement`, `cleanupElement`, `scanAndHighlight`, and the
tracked-element teardown loop of the `beforeunload` handler.  (It holds in
the initial all-empty state, so it holds after any operation sequence.) -/
theorem membership_invariant_preserved (s : SysState) (e : ElemId)
    (h : membershipInv s) :
    membershipInv (highlightElement e s) ∧ membershipInv (cleanupElement e s) ∧
    membershipInv (scanAndHighlight s) ∧ membershipInv (teardownSys s) := by
  refine ⟨membershipInv_highlight e s h, membershipInv_cleanup e s h, ?_, ?_⟩
  · rw [scanAndHighlight_def]
    exact membershipInv_foldl_cleanupStep _ _ _
      (membershipInv_foldl_highlight _ _ h)
  · exact membershipInv_foldl_cleanup _ _ h

theorem membership_invariant_preserved_witness :
    membershipInv initState ∧
    (membershipInv (highlightElement 0 initState) ∧
      membershipInv (cleanupElement 0 initState) ∧
      membershipInv (scanAndHighlight initState) ∧
      membershipInv (teardownSys initState)) :=
  ⟨membershipInv_init, membership_invariant_preserved initState 0 membershipInv_init⟩

/-! ### Debounce collapse -/

theorem debExecs_singleton {α : Type} (wait : Nat) (c : Nat × α) :
    debExecs wait [c] = [c.2] := rfl

theorem debExecs_cons {α : Type} (wait : Nat) (t1 t2 : Nat) (a1 a2 : α)
    (cs : List (Nat × α)) (h : t2 < t1 + wait) :
    debExecs wait ((t1, a1) :: (t2, a2) :: cs) = debExecs wait ((t2, a2) :: cs) := by
  have hstep :
      debStep wait (debStep wait ((none : Option (Nat × α)), ([] : List α)) (t1, a1))
          (t2, a2) =
        debStep wait (none, []) (t2, a2) := by
    unfold debStep
    dsimp only
    rw [if_neg (Nat.not_le.mpr h)]
  have hfold :
      ((t1, a1) :: (t2, a2) :: cs).foldl (debStep wait)
          ((none : Option (Nat × α)), ([] : List α)) =
        ((t2, a2) :: cs).foldl (debStep wait) (none, []) := by
    rw [List.foldl_cons, List.foldl_cons, hstep, List.foldl_cons]
  simp only [debExecs]
  rw [hfold]

theorem debExecs_withinWindow {α : Type} (wait : Nat) :
    ∀ (cs : List (Nat × α)) (c : Nat × α),
      withinWindow wait (c :: cs) = true →
      debExecs wait (c :: cs) = [(cs.getLastD c).2] := by
  intro cs
  induction cs with
  | nil => exact fun c _ => debExecs_singleton wait c
  | cons c' cs ih =>
    intro c h
    obtain ⟨t1, a1⟩ := c
    obtain ⟨t2, a2⟩ := c'
    simp only [withinWindow, Bool.and_eq_true, decide_eq_true_eq] at h
    obtain ⟨⟨hle, hlt⟩, hrest⟩ := h
    rw [debExecs_cons wait t1 t2 a1 a2 cs hlt, ih (t2, a2) hrest,
      List.getLastD_cons]

/-- C4: within the quiet window (100ms), N invocations of the debounced
action collapse into exactly one execution of the wrapped function, carrying
the arguments of the last invocation; moreover every invocation replaces the
pending scheduled invocation (`clearTimeout` + `setTimeout`) with one due a
full window later.  Instantiated at `debounceWaitMs = 100`, the wait used by
`debouncedScanAndHighlight`, to which the mutation-observer callback
forwards each relevant mutation batch, so N relevant mutation notifications
inside the window yield exactly one reconciliation pass. -/
theorem debounce_collapse {α : Type} (c : Nat × α) (cs : List (Nat × α))
    (h : withinWindow debounceWaitMs (c :: cs) = true) :
    debExecs debounceWaitMs (c :: cs) = [(cs.getLastD c).2] ∧
    (debExecs debounceWaitMs (c :: cs)).length = 1 ∧
    ∀ (st : Option (Nat × α) × List α) (call : Nat × α),
      (debStep debounceWaitMs st call).1 =
        some (call.1 + debounceWaitMs, call.2) := by
  have he := debExecs_withinWindow debounceWaitMs cs c h
  refine ⟨he, ?_, fun st call => rfl⟩
  rw [he]
  rfl

theorem debounce_collapse_witness :
    withinWindow debounceWaitMs [((0 : Nat), (10 : Nat)), (50, 20), (99, 30)] = true ∧
    debExecs debounceWaitMs [((0 : Nat), (10 : Nat)), (50, 20), (99, 30)] = [30] :=
  ⟨by decide, by
    have h :=
      (debounce_collapse ((0 : Nat), (10 : Nat)) [(50, 20), (99, 30)] (by decide)).1
    exact h.trans (by rfl)⟩

/-! ### Feedback notifier -/

theorem showCopyFeedback_feedbacks (t : String) (tid tag : Nat) (s : FbState)
    {x : Feedback} {xs : List Feedback} (hm : s.feedbacks = x :: xs) :
    (showCopyFeedback t tid tag s).feedbacks =
      xs ++ [Feedback.mk tag ("Copied: " ++ t)] := by
  simp [showCopyFeedback, hm]

/-- C5: at most one copy-feedback artifact exists at any time.  From a
document holding at most one artifact, `showCopyFeedback` leaves exactly one
(it removes the prior artifact and cancels its pending removal timer before
appending the new one, so `activeTimeouts` ends as exactly the new timer),
the removal timer callback leaves at most one, and two copy actions in quick
succession leave the single artifact showing the most recent identifier. -/
theorem feedback_singleton (s : FbState) (t1 t2 : String)
    (tid1 tag1 tid2 tag2 : Nat) (hlen : s.feedbacks.length ≤ 1) :
    (showCopyFeedback t1 tid1 tag1 s).feedbacks.length ≤ 1 ∧
    (∀ tid : Nat, (feedbackTimerFire tid s).feedbacks.length ≤ 1) ∧
    (showCopyFeedback t2 tid2 tag2 (showCopyFeedback t1 tid1 tag1 s)).feedbacks =
      [Feedback.mk tag2 ("Copied: " ++ t2)] ∧
    (showCopyFeedback t2 tid2 tag2 (showCopyFeedback t1 tid1 tag1 s)).activeTimeouts =
      [(tid2, tag2)] := by
  have hfb1 : (showCopyFeedback t1 tid1 tag1 s).feedbacks =
      [Feedback.mk tag1 ("Copied: " ++ t1)] := by
    cases hm : s.feedbacks with
    | nil => simp [showCopyFeedback, hm]
    | cons x xs =>
      cases xs with
      | nil => simp [showCopyFeedback, hm]
      | cons y ys =>
        rw [hm] at hlen
        simp at hlen
  refine ⟨by rw [hfb1]; exact Nat.le_refl 1, ?_, ?_, rfl⟩
  · intro tid
    unfold feedbackTimerFire
    cases hf : s.activeTimeouts.find? (fun p => p.1 == tid) with
    | none => exact hlen
    | some p =>
      exact Nat.le_trans (List.length_filter_le _ _) hlen
  · rw [showCopyFeedback_feedbacks t2 tid2 tag2 _ hfb1]
    rfl

theorem feedback_singleton_witness :
    (FbState.mk [] []).feedbacks.length ≤ 1 ∧
    ((showCopyFeedback "a" 1 11 (FbState.mk [] [])).feedbacks.length ≤ 1 ∧
      (∀ tid : Nat, (feedbackTimerFire tid (FbState.mk [] [])).feedbacks.length ≤ 1) ∧
      (showCopyFeedback "b" 2 12 (showCopyFeedback "a" 1 11 (FbState.mk [] []))).feedbacks =
        [Feedback.mk 12 ("Copied: " ++ "b")] ∧
      (showCopyFeedback "b" 2 12 (showCopyFeedback "a" 1 11 (FbState.mk [] []))).activeTimeouts =
        [(2, 12)]) :=
  ⟨by decide, feedback_singleton (FbState.mk [] []) "a" "b" 1 11 2 12 (by decide)⟩

/-! ### Teardown -/

theorem foldl_cleanup_drains :
    ∀ (l : List ElemId) (s : SysState),
      (∀ e ∈ s.tracked, e ∈ l) → (∀ e ∈ s.tracked, e ∈ s.elementData) →
      (l.foldl (fun st e => cleanupElement e st) s).tracked = [] := by
  intro l
  induction l with
  | nil =>
    intro s h1 _
    simp only [List.foldl_nil]
    exact List.eq_nil_iff_forall_not_mem.mpr fun e he => List.not_mem_nil e (h1 e he)
  | cons a l ih =>
    intro s h1 h2
    rw [List.foldl_cons]
    rcases cleanupElement_cases a s with ⟨hn, heq⟩ | ⟨hm, heq⟩
    · rw [heq]
      refine ih s ?_ h2
      intro e he
      rcases List.mem_cons.mp (h1 e he) with rfl | h
      · exact absurd (h2 e he) hn
      · exact h
    · refine ih (cleanupElement a s) ?_ ?_
      · intro e he
        have hes : e ∈ s.tracked := mem_tracked_of_cleanup he
        have hne : e ≠ a := by
          rw [heq] at he
          exact (mem_removeId.mp he).2
        rcases List.mem_cons.mp (h1 e hes) with h | h
        · exact absurd h hne
        · exact h
      · intro e he
        have hes : e ∈ s.tracked := mem_tracked_of_cleanup he
        have hne : e ≠ a := by
          rw [heq] at he
          exact (mem_removeId.mp he).2
        exact mem_elementData_of_cleanup_ne hne (h2 e hes)

theorem teardownSys_tracked (s : SysState)
    (hinv : ∀ e ∈ s.tracked, e ∈ s.elementData) : (teardownSys s).tracked = [] :=
  foldl_cleanup_drains s.tracked s (fun _ he => he) hinv

/-- C6, counterexample.  The claim asserts that the `beforeunload` teardown
clears every pending timer, including tooltip-removal timers and a pending
debounced reconciliation.  The handler only clears the ids stored in
`activeTimeouts` (the feedback-removal timers); it has no reference to the
tooltip-removal `setTimeout`s or to the debounce closure's internal timer,
so a state with one pending tooltip-removal timer and a pending debounced
pass still has two pending timers after teardown. -/
theorem teardown_leaves_timers :
    pendingTimerCount
        (beforeunloadHandler (FullState.mk initState [3] [7] true true true true)) = 2 ∧
    (beforeunloadHandler
        (FullState.mk initState [3] [7] true true true true)).tooltipRemovalTimers = [7] ∧
    (beforeunloadHandler
        (FullState.mk initState [3] [7] true true true true)).debouncePending = true := by
  refine ⟨?_, rfl, rfl⟩
  decide

/-- C6 (amended): the `beforeunload` teardown detaches every tracked element
(under the side-table membership invariant the code maintains), clears every
timer registered in `activeTimeouts` (the feedback-removal timers),
disconnects the mutation observer and removes any remaining tooltip or
feedback artifact — but it does not cancel pending tooltip-removal timers or
a pending debounced reconciliation, which it holds no reference to. -/
theorem beforeunload_cleanup (st : FullState)
    (hinv : ∀ e ∈ st.sys.tracked, e ∈ st.sys.elementData) :
    (beforeunloadHandler st).sys.tracked = [] ∧
    (beforeunloadHandler st).activeTimeouts = [] ∧
    (beforeunloadHandler st).observerConnected = false ∧
    (beforeunloadHandler st).tooltipInDoc = false ∧
    (beforeunloadHandler st).feedbackInDoc = false ∧
    (beforeunloadHandler st).tooltipRemovalTimers = st.tooltipRemovalTimers ∧
    (beforeunloadHandler st).debouncePending = st.debouncePending := by
  refine ⟨?_, rfl, rfl, rfl, rfl, rfl, rfl⟩
  exact teardownSys_tracked st.sys hinv

theorem beforeunload_cleanup_witness :
    (∀ e ∈ (SysState.mk [] [] [(2, highlightClass)] [(2, mouseenterEvt)] [2] [2] 1 0).tracked,
      e ∈ (SysState.mk [] [] [(2, highlightClass)] [(2, mouseenterEvt)] [2] [2] 1 0).elementData) ∧
    ((beforeunloadHandler (FullState.mk
        (SysState.mk [] [] [(2, highlightClass)] [(2, mouseenterEvt)] [2] [2] 1 0)
        [4] [] false true false true)).sys.tracked = [] ∧
      (beforeunloadHandler (FullState.mk
        (SysState.mk [] [] [(2, highlightClass)] [(2, mouseenterEvt)] [2] [2] 1 0)
        [4] [] false true false true)).activeTimeouts = [] ∧
      (beforeunloadHandler (FullState.mk
        (SysState.mk [] [] [(2, highlightClass)] [(2, mouseenterEvt)] [2] [2] 1 0)
        [4] [] false true false true)).observerConnected = false ∧
      (beforeunloadHandler (FullState.mk
        (SysState.mk [] [] [(2, highlightClass)] [(2, mouseenterEvt)] [2] [2] 1 0)
        [4] [] false true false true)).tooltipInDoc = false ∧
      (beforeunloadHandler (FullState.mk
        (SysState.mk [] [] [(2, highlightClass)] [(2, mouseenterEvt)] [2] [2] 1 0)
        [4] [] false true false true)).feedbackInDoc = false ∧
      (beforeunloadHandler (FullState.mk
        (SysState.mk [] [] [(2, highlightClass)] [(2, mouseenterEvt)] [2] [2] 1 0)
        [4] [] false true false true)).tooltipRemovalTimers =
        (FullState.mk
        (SysState.mk [] [] [(2, highlightClass)] [(2, mouseenterEvt)] [2] [2] 1 0)
        [4] [] false true false true).tooltipRemovalTimers ∧
      (beforeunloadHandler (FullState.mk
        (SysState.mk [] [] [(2, highlightClass)] [(2, mouseenterEvt)] [2] [2] 1 0)
        [4] [] false true false true)).debouncePending =
        (FullState.mk
        (SysState.mk [] [] [(2, highlightClass)] [(2, mouseenterEvt)] [2] [2] 1 0)
        [4] [] false true false true).debouncePending) :=
  ⟨by decide, beforeunload_cleanup _ (by decide)⟩

/-! ### Tooltip removal while hovered -/

/-- C7: the claim (and the source comment "Cancel any pending removal" on
the tooltip's empty `mouseenter` listener) says a pending delayed removal
never removes the tooltip while the pointer is over it.  The code disagrees:
the timer scheduled by the tooltip's own `mouseleave` listener checks only
`tooltip.parentNode`, not `:hover`, and the `mouseenter` listener cancels
nothing.  Trace: pointer leaves the tooltip at t=0 (removal scheduled for
t=100), re-enters at t=50, and at t=100 the timer removes the tooltip even
though the pointer is over it. -/
theorem tooltip_removed_while_hovered :
    (tipRun (TipState.mk true true [] [])
      [TipEvent.tipLeave 0, TipEvent.tipEnter,
        TipEvent.tipTimerFire 100]).pointerOverTooltip = true ∧
    (tipRun (TipState.mk true true [] [])
      [TipEvent.tipLeave 0, TipEvent.tipEnter,
        TipEvent.tipTimerFire 100]).tooltipPresent = false := by
  refine ⟨?_, ?_⟩ <;> decide

/-! ### Clipboard copy path -/

/-- C8: for a user-initiated copy on an element with a non-empty identifier,
the handler never propagates a failure (it always returns `Except.ok`),
invokes the feedback notifier exactly once, and invokes the synchronous
fallback exactly when the asynchronous clipboard write fails — whatever the
fallback's own `execCommand` outcome, whose failure is only logged. -/
theorem copy_best_effort (testId : String) (clipOk execOk : Bool)
    (h : testId ≠ "") :
    ∃ o : CopyOutcome, clickHandler testId clipOk execOk = Except.ok o ∧
      o.feedbackCalls = 1 ∧ o.fallbackInvoked = !clipOk := by
  unfold clickHandler
  rw [if_neg h]
  cases clipOk
  · exact ⟨_, rfl, rfl, rfl⟩
  · exact ⟨_, rfl, rfl, rfl⟩

theorem copy_best_effort_witness :
    ("login-btn" : String) ≠ "" ∧
    ∃ o : CopyOutcome, clickHandler "login-btn" false false = Except.ok o ∧
      o.feedbackCalls = 1 ∧ o.fallbackInvoked = !false :=
  ⟨by decide, copy_best_effort "login-btn" false false (by decide)⟩
